import Mathlib

/-!
# Verification of the localtranslation frontend against its specification

Shallow embedding of the TypeScript sources of the speech-processing
desktop client:

* `frontend/src/components/FileUploader.tsx` (file selection and validation,
  two variants of the component exist in the repository),
* `frontend/src/components/TranscriptionView.tsx` (TXT / JSON / SRT export),
* `frontend/src/services/transcription.ts` (job submission forms, status
  polling),
* `frontend/src/services/api.ts` (axios error interceptor),
* `frontend/src/stores/transcription.ts` (zustand store).

Conventions of the embedding:

* JavaScript numbers that hold byte counts or speaker counts are modelled as
  `ℕ` / `ℤ`; numbers holding seconds / confidences are modelled as `ℚ`
  (the formatting claims proved here do not depend on IEEE-754 rounding:
  division of an integer byte count by `1024 * 1024` is exact in binary
  floating point, and the SRT component extraction is proved for exact
  arithmetic).
* JavaScript string helpers (`split` with a one-character separator,
  `toLowerCase` restricted to ASCII as relevant for the extension
  allow-list, `padStart`, default `sort`) are given as structural
  recursions so that every definition evaluates by kernel reduction.
* `a || b` on strings and `cond ? x : y` follow JavaScript truthiness
  (the empty string and the number `0` are falsy).
-/

/-! ## JavaScript string and number primitives -/

/-- `a || b` for JavaScript strings: the empty string is falsy. -/
def jsOrStr (a b : String) : String :=
  if a = "" then b else a

/-- `String(b)` for a JavaScript boolean. -/
def jsBoolStr : Bool → String
  | true => "true"
  | false => "false"

/-- Splitting a character list at every occurrence of the separator, with the
accumulator holding the current (reversed) chunk; models
`String.prototype.split` with a one-character separator. -/
def splitCharAux (sep : Char) : List Char → List Char → List (List Char)
  | [], acc => [acc.reverse]
  | a :: t, acc =>
    if a = sep then acc.reverse :: splitCharAux sep t []
    else splitCharAux sep t (a :: acc)

/-- `s.split(sep)` for a one-character separator. -/
def jsSplit (s : String) (sep : Char) : List String :=
  (splitCharAux sep s.data []).map String.mk

/-- ASCII lowercasing of one character; `String.prototype.toLowerCase` is
modelled on the ASCII range, which is the only range that can reach the
all-ASCII extension allow-list. -/
def lowerChar (c : Char) : Char :=
  if 'A' ≤ c ∧ c ≤ 'Z' then Char.ofNat (c.toNat + 32) else c

/-- `s.toLowerCase()` (ASCII). -/
def lowerStr (s : String) : String :=
  String.mk (s.data.map lowerChar)

/-- `s.padStart(w, c)` for a one-character pad string. -/
def padStart (s : String) (w : Nat) (c : Char) : String :=
  if s.length < w then String.mk (List.replicate (w - s.length) c) ++ s else s

/-- Lexicographic strict comparison of character lists by code point; models
the default string comparison used by `Array.prototype.sort`. -/
def charListLt : List Char → List Char → Bool
  | [], [] => false
  | [], _ :: _ => true
  | _ :: _, [] => false
  | a :: as, b :: bs =>
    if a < b then true else if b < a then false else charListLt as bs

/-- `a <= b` in the default-sort string order. -/
def strLeB (a b : String) : Bool :=
  !(charListLt b.data a.data)

/-- Insert a string into an already sorted list. -/
def insertSorted (s : String) : List String → List String
  | [] => [s]
  | a :: t => if strLeB s a then s :: a :: t else a :: insertSorted s t

/-- `arr.sort()` with the default comparator, realised as insertion sort
(the source only uses the sorted result, never the algorithm). -/
def sortStrings (l : List String) : List String :=
  l.foldr insertSorted []

/-- Truncation toward zero, the rounding used by the JavaScript `%`
operator. -/
def rtrunc (q : ℚ) : ℤ :=
  if q < 0 then ⌈q⌉ else ⌊q⌋

/-- The JavaScript remainder `a % b` (sign follows the dividend). -/
def jsMod (a b : ℚ) : ℚ :=
  a - b * (rtrunc (a / b) : ℚ)

/-! ## Data model (`frontend/src/types/api.ts`) -/

/-- Whisper model selector. -/
inductive ModelSize where
  | tiny
  | base
  | small
  | medium
  | large
deriving DecidableEq, Repr

/-- The wire string of a model size. -/
def modelSizeStr : ModelSize → String
  | .tiny => "tiny"
  | .base => "base"
  | .small => "small"
  | .medium => "medium"
  | .large => "large"

/-- Job lifecycle states. -/
inductive JobStatus where
  | pending
  | processing
  | completed
  | failed
deriving DecidableEq, Repr

/-- A word-level timestamp entry. `stop` embeds the source field `end`,
which is a reserved word in Lean. -/
structure Word where
  word : String
  start : ℚ
  stop : ℚ
  confidence : ℚ
deriving DecidableEq, Repr

/-- One transcript segment. `stop` embeds the source field `end`. -/
structure TranscriptionSegment where
  id : ℚ
  text : String
  start : ℚ
  stop : ℚ
  confidence : ℚ
  speaker : Option String
  words : Option (List Word)
deriving DecidableEq, Repr

/-- A completed transcription result. -/
structure TranscriptionResult where
  text : String
  segments : List TranscriptionSegment
  language : String
  duration : ℚ
deriving DecidableEq, Repr

/-- A job snapshot as served by the status endpoint. -/
structure JobResponse where
  job_id : String
  status : JobStatus
  progress : ℚ
  result : Option TranscriptionResult
  error : Option String
  created_at : String
  completed_at : Option String
deriving DecidableEq, Repr

/-- Options accepted by the submission endpoints
(`TranscriptionRequest` in `types/api.ts`; every field optional). -/
structure TranscriptionRequest where
  language : Option String := none
  model_size : Option ModelSize := none
  enable_diarization : Option Bool := none
  num_speakers : Option ℤ := none
deriving DecidableEq, Repr

/-- The structured error body `{code, message, details?}` of an
`ApiError` response. -/
structure ApiErrorBody where
  code : String
  message : String
  details : Option String
deriving DecidableEq, Repr

/-! ## FileUploader (`components/FileUploader.tsx`, `src/unnamed/part_001`) -/

/-- A selected browser `File`: name, byte size, and MIME type
(`file.type`). -/
structure JsFile where
  name : String
  size : ℕ
  mime : String
deriving DecidableEq, Repr

namespace FileUploader

/-- The fixed extension allow-list. -/
def SUPPORTED_FORMATS : List String :=
  [".wav", ".mp3", ".m4a", ".flac", ".ogg", ".mp4", ".mov", ".avi"]

/-- The size ceiling in megabytes. -/
def MAX_FILE_SIZE_MB : ℕ := 500

/-- The extension the component computes:
`"." + fileName.split(".").pop()?.toLowerCase()`. -/
def extOf (fileName : String) : String :=
  "." ++ lowerStr ((jsSplit fileName '.').getLastD "")

/-- `validateFileName`: membership of the computed extension in the
allow-list (the component also sets an error message, which is UI state
and not part of the validation result). -/
def validateFileName (fileName : String) : Bool :=
  SUPPORTED_FORMATS.contains (extOf fileName)

/-- `validateFile`: extension check, then the size ceiling
`file.size / (1024*1024) > MAX_FILE_SIZE_MB`. -/
def validateFile (f : JsFile) : Bool :=
  if validateFileName f.name then
    if (MAX_FILE_SIZE_MB : ℚ) < (f.size : ℚ) / (1024 * 1024) then false
    else true
  else false

/-- Kind of a stored selection. -/
inductive SelKind where
  | file
  | path
deriving DecidableEq, Repr

/-- The `selectedFileInfo` record. -/
structure SelectedFileInfo where
  kind : SelKind
  file : Option JsFile
  path : Option String
  fileName : String
  mimeType : String
deriving DecidableEq, Repr

/-- The component's transcription options. -/
structure TranscriptionOptions where
  language : Option String
  modelSize : ModelSize
  enableDiarization : Bool
  numSpeakers : Option ℤ
deriving DecidableEq, Repr

/-- `handleFileChange`: store the file only when `validateFile` passes
(`file.type || "audio/mpeg"` supplies the MIME type). -/
def handleFileChange (f : JsFile) (st : Option SelectedFileInfo) :
    Option SelectedFileInfo :=
  if validateFile f then
    some ⟨.file, some f, none, f.name, jsOrStr f.mime "audio/mpeg"⟩
  else st

/-- The `getMimeType` extension table with its `"audio/mpeg"` default. -/
def getMimeType (ext : String) : String :=
  if ext = "mp3" then "audio/mpeg"
  else if ext = "wav" then "audio/wav"
  else if ext = "m4a" then "audio/mp4"
  else if ext = "flac" then "audio/flac"
  else if ext = "ogg" then "audio/ogg"
  else if ext = "mp4" then "video/mp4"
  else if ext = "mov" then "video/quicktime"
  else if ext = "avi" then "video/x-msvideo"
  else "audio/mpeg"

/-- `selected.split("/").pop() || "audio"`. -/
def dialogFileName (p : String) : String :=
  jsOrStr ((jsSplit p '/').getLastD "") "audio"

/-- `fileName.split(".").pop()?.toLowerCase() || "mp3"`. -/
def dialogExt (fileName : String) : String :=
  jsOrStr (lowerStr ((jsSplit fileName '.').getLastD "")) "mp3"

/-- The success branch of `handleBrowseClick`: a path string came back from
the Tauri dialog; store it only when `validateFileName` passes. -/
def handleBrowseSelect (p : String) (st : Option SelectedFileInfo) :
    Option SelectedFileInfo :=
  let fileName := dialogFileName p
  let mimeType := getMimeType (dialogExt fileName)
  if validateFileName fileName then
    some ⟨.path, none, some p, fileName, mimeType⟩
  else st

/-- The upload request `handleSubmit` hands to the app: either the stored
`File` object or the stored path. -/
inductive SubmitAction where
  | fileSelect (f : JsFile) (opts : TranscriptionOptions)
  | filePathSelect (path fileName mimeType : String)
      (opts : TranscriptionOptions)
deriving DecidableEq, Repr

/-- The file name an action would upload under. -/
def actionFileName : SubmitAction → String
  | .fileSelect f _ => f.name
  | .filePathSelect _ fn _ _ => fn

/-- `handleSubmit`: nothing is emitted without a stored selection;
a stored `File` goes to `onFileSelect`, a stored path goes to
`onFilePathSelect` when that handler exists (`hp`). -/
def handleSubmit (hp : Bool) (st : Option SelectedFileInfo)
    (opts : TranscriptionOptions) : Option SubmitAction :=
  match st with
  | none => none
  | some info =>
    if info.kind = .file then
      match info.file with
      | some f => some (.fileSelect f opts)
      | none => none
    else
      match info.path with
      | some p =>
        if hp then some (.filePathSelect p info.fileName info.mimeType opts)
        else none
      | none => none

/-- The user-visible events of the component. -/
inductive UploaderEvent where
  | dropFile (f : JsFile)
  | dialogSelect (p : String)
  | dialogCancel
  | submit (opts : TranscriptionOptions)

/-- One event step: the next `selectedFileInfo` and the action emitted,
if any. -/
def stepUploader (hp : Bool) (st : Option SelectedFileInfo) :
    UploaderEvent → Option SelectedFileInfo × Option SubmitAction
  | .dropFile f => (handleFileChange f st, none)
  | .dialogSelect p => (handleBrowseSelect p st, none)
  | .dialogCancel => (st, none)
  | .submit opts => (st, handleSubmit hp st opts)

/-- Run a sequence of events from a given state, collecting every emitted
action in order. -/
def runUploaderFrom (hp : Bool) (st : Option SelectedFileInfo) :
    List UploaderEvent → Option SelectedFileInfo × List SubmitAction
  | [] => (st, [])
  | e :: evs =>
    let s := stepUploader hp st e
    let r := runUploaderFrom hp s.1 evs
    (r.1, s.2.toList ++ r.2)

/-- Run a sequence of events from the initial (empty) state. -/
def runUploader (hp : Bool) (evs : List UploaderEvent) :
    Option SelectedFileInfo × List SubmitAction :=
  runUploaderFrom hp none evs

end FileUploader

/-- `validateFile` of the second `FileUploader` variant in the repository
(`src/unnamed/part_002`): the same extension and size checks, inlined. -/
def validateFileV2 (f : JsFile) : Bool :=
  if FileUploader.SUPPORTED_FORMATS.contains
      ("." ++ lowerStr ((jsSplit f.name '.').getLastD "")) then
    if (FileUploader.MAX_FILE_SIZE_MB : ℚ) < (f.size : ℚ) / (1024 * 1024) then
      false
    else true
  else false

/-! ## Transcription service (`services/transcription.ts`) -/

/-- One entry of the multipart form: the binary file part or a plain text
field. -/
inductive FormPart where
  | filePart (fileName blobType : String) (bytes : ℕ)
  | field (value : String)
deriving DecidableEq, Repr

/-- The multipart form built by `transcribeFile`: the file payload
(`file.type || "audio/mpeg"` as blob type), then `language` when truthy,
`model_size` defaulting to `"base"`, `enable_diarization` defaulting to
`false`, and `num_speakers` when truthy. -/
def transcribeFileForm (f : JsFile) (o : TranscriptionRequest) :
    List (String × FormPart) :=
  [("file", .filePart f.name (jsOrStr f.mime "audio/mpeg") f.size)]
  ++ (match o.language with
      | some l => if l = "" then [] else [("language", .field l)]
      | none => [])
  ++ [("model_size",
        .field (match o.model_size with
                | some m => modelSizeStr m
                | none => "base"))]
  ++ [("enable_diarization", .field (jsBoolStr (o.enable_diarization.getD false)))]
  ++ (match o.num_speakers with
      | some n => if n = 0 then [] else [("num_speakers", .field (toString n))]
      | none => [])

/-- The multipart form built by `transcribeFileFromPath`: the file bytes are
read from disk (`fileBytes`), and the caller-supplied MIME type is used
without a default. -/
def transcribeFileFromPathForm (fileName mime : String) (fileBytes : ℕ)
    (o : TranscriptionRequest) : List (String × FormPart) :=
  [("file", .filePart fileName mime fileBytes)]
  ++ (match o.language with
      | some l => if l = "" then [] else [("language", .field l)]
      | none => [])
  ++ [("model_size",
        .field (match o.model_size with
                | some m => modelSizeStr m
                | none => "base"))]
  ++ [("enable_diarization", .field (jsBoolStr (o.enable_diarization.getD false)))]
  ++ (match o.num_speakers with
      | some n => if n = 0 then [] else [("num_speakers", .field (toString n))]
      | none => [])

/-- The message of the error thrown on a failed upload response in
`transcribeFile` / `transcribeFileFromPath`: the structured body yields
`"code: message"`, otherwise the HTTP status is reported. -/
def tauriUploadErrorMessage (status : ℕ) (body : Option ApiErrorBody) : String :=
  match body with
  | some e => e.code ++ ": " ++ e.message
  | none => "Request failed with status " ++ toString status

/-- An axios rejection as seen by the response interceptor:
`response = some (some b)` means a response with a structured error body
`b` arrived, `some none` a response without one, `none` no response at
all; `message` is the transport-level message. -/
structure AxiosFailure where
  response : Option (Option ApiErrorBody)
  message : String
deriving DecidableEq, Repr

/-- The message of the error thrown by the axios response interceptor in
`services/api.ts`. -/
def interceptorMessage (e : AxiosFailure) : String :=
  match e.response with
  | some (some apiError) => apiError.code ++ ": " ++ apiError.message
  | _ =>
    if e.message = "Network Error" then
      "Unable to connect to backend server. Please ensure the backend is running."
    else jsOrStr e.message "An unexpected error occurred"

/-- `job.error || "Job failed"`, the message `pollJobStatus` rejects
with. -/
def jobErrorMessage (j : JobResponse) : String :=
  jsOrStr (j.error.getD "") "Job failed"

/-- Whether a status is terminal. -/
def isTerminal : JobStatus → Bool
  | .completed => true
  | .failed => true
  | .pending => false
  | .processing => false

/-- How the `pollJobStatus` promise settles. -/
inductive PollOutcome where
  | resolved (job : JobResponse)
  | rejected (msg : String)
  | exhausted
deriving DecidableEq, Repr

/-- Running `pollJobStatus` over the successive snapshots returned by
`getJobStatus`: resolve on `completed`, reject on `failed`, otherwise
schedule another poll (counted in the first component); `exhausted` means
the given snapshots ran out with the loop still scheduled. -/
def pollJobStatusRun : List JobResponse → ℕ × PollOutcome
  | [] => (0, .exhausted)
  | j :: rest =>
    if j.status = .completed then (0, .resolved j)
    else if j.status = .failed then (0, .rejected (jobErrorMessage j))
    else ((pollJobStatusRun rest).1 + 1, (pollJobStatusRun rest).2)

/-- A status sequence never leaves a terminal state (the §3 state-machine
invariant restricted to what C6 needs): checked pairwise. -/
def absorbingB : List JobStatus → Bool
  | [] => true
  | [_] => true
  | a :: b :: t => (!(isTerminal a) || (b == a)) && absorbingB (b :: t)

/-! ## TranscriptionView (`components/TranscriptionView.tsx`) -/

/-- A speaker-id to display-name mapping, the `speakerNames` record. -/
def SpeakerNames : Type := List (String × String)

/-- `getSpeakerDisplayName`: empty for a falsy speaker id, otherwise
`speakerNames[speakerId] || speakerId`. -/
def getSpeakerDisplayName (names : List (String × String))
    (speakerId : Option String) : String :=
  match speakerId with
  | none => ""
  | some id => if id = "" then "" else jsOrStr ((names.lookup id).getD "") id

/-- Add a speaker to the accumulating `Set` (insertion order, no
duplicates). -/
def addOnce (acc : List String) (s : String) : List String :=
  if s ∈ acc then acc else acc ++ [s]

/-- One `forEach` step of `uniqueSpeakers`: add the segment's speaker to
the `Set` when it is truthy. -/
def collectStep (acc : List String) (g : TranscriptionSegment) : List String :=
  match g.speaker with
  | some s => if s = "" then acc else addOnce acc s
  | none => acc

/-- Collect the truthy `speaker` fields, in order, without duplicates
(the `Set` built by `uniqueSpeakers`). -/
def collectSpeakers (segs : List TranscriptionSegment) : List String :=
  segs.foldl collectStep []

/-- Whether a segment carries a (truthy) speaker label. -/
def hasSpeakerLabel (seg : TranscriptionSegment) : Bool :=
  match seg.speaker with
  | some s => !(s == "")
  | none => false

/-- `uniqueSpeakers`: the collected speakers, sorted. -/
def uniqueSpeakers (segs : List TranscriptionSegment) : List String :=
  sortStrings (collectSpeakers segs)

/-- `formatSrtTime`: hours, minutes, seconds and milliseconds obtained with
`Math.floor` and the JavaScript `%`, each zero-padded. -/
def formatSrtTime (seconds : ℚ) : String :=
  padStart (toString ⌊seconds / 3600⌋) 2 '0' ++ ":" ++
  padStart (toString ⌊jsMod seconds 3600 / 60⌋) 2 '0' ++ ":" ++
  padStart (toString ⌊jsMod seconds 60⌋) 2 '0' ++ "," ++
  padStart (toString ⌊jsMod seconds 1 * 1000⌋) 3 '0'

/-- The speaker bracket put before an SRT cue's text:
`speaker ? "[speaker] " : ""`. -/
def srtSpeakerTag (names : List (String × String))
    (seg : TranscriptionSegment) : String :=
  if getSpeakerDisplayName names seg.speaker = "" then ""
  else "[" ++ getSpeakerDisplayName names seg.speaker ++ "] "

/-- `generateSrtContent`: one cue per segment, 1-indexed, joined with a
newline (each cue already ends in one). -/
def generateSrtContent (names : List (String × String))
    (r : TranscriptionResult) : String :=
  String.intercalate "\n"
    ((r.segments.enum).map fun p =>
      toString (p.1 + 1) ++ "\n" ++
      formatSrtTime p.2.start ++ " --> " ++ formatSrtTime p.2.stop ++ "\n" ++
      srtSpeakerTag names p.2 ++ p.2.text ++ "\n")

/-- The speaker label put before a TXT line:
`speaker ? "[speaker]: " : ""`. -/
def txtSpeakerTag (names : List (String × String))
    (seg : TranscriptionSegment) : String :=
  if getSpeakerDisplayName names seg.speaker = "" then ""
  else "[" ++ getSpeakerDisplayName names seg.speaker ++ "]: "

/-- `generateTextContent`: the raw `result.text` when no speakers were
found, otherwise the labelled segments joined by blank lines. -/
def generateTextContent (names : List (String × String))
    (r : TranscriptionResult) : String :=
  if (uniqueSpeakers r.segments).length = 0 then r.text
  else
    String.intercalate "\n\n"
      (r.segments.map fun seg => txtSpeakerTag names seg ++ seg.text)

/-- The JSON tree produced by `JSON.stringify` input values; `parse` after
`stringify` is the identity on such trees, so the export/parse-back claims
are stated on the tree itself. -/
inductive Json where
  | null
  | str (s : String)
  | num (q : ℚ)
  | bool (b : Bool)
  | arr (elems : List Json)
  | obj (fields : List (String × Json))

/-- Setting a key in an object literal: a later duplicate key overwrites
the earlier value in place (JavaScript object-literal semantics), a new
key is appended. -/
def objInsert (fs : List (String × Json)) (k : String) (v : Json) :
    List (String × Json) :=
  if fs.any (fun p => p.1 == k) then
    fs.map fun p => if p.1 == k then (k, v) else p
  else fs ++ [(k, v)]

/-- A `Word` as JSON. -/
def wordToJson (w : Word) : Json :=
  .obj [("word", .str w.word), ("start", .num w.start),
        ("end", .num w.stop), ("confidence", .num w.confidence)]

/-- The fields of a `TranscriptionSegment` as JSON: optional fields are
present exactly when set. -/
def segBaseJson (g : TranscriptionSegment) : List (String × Json) :=
  [("id", .num g.id), ("text", .str g.text), ("start", .num g.start),
   ("end", .num g.stop), ("confidence", .num g.confidence)]
  ++ (match g.speaker with
      | some s => [("speaker", .str s)]
      | none => [])
  ++ (match g.words with
      | some ws => [("words", .arr (ws.map wordToJson))]
      | none => [])

/-- The fields of one exported segment:
`{...seg, speaker_name: seg.speaker ? getSpeakerDisplayName(seg.speaker) : null}`. -/
def exportSegFields (names : List (String × String))
    (g : TranscriptionSegment) : List (String × Json) :=
  objInsert (segBaseJson g) "speaker_name"
    (match g.speaker with
     | some s =>
       if s = "" then Json.null
       else .str (getSpeakerDisplayName names (some s))
     | none => Json.null)

/-- One exported segment as JSON. -/
def exportSegJson (names : List (String × String))
    (g : TranscriptionSegment) : Json :=
  .obj (exportSegFields names g)

/-- The `speakerNames` record as JSON. -/
def speakerNamesJson (names : List (String × String)) : Json :=
  .obj (names.map fun p => (p.1, Json.str p.2))

/-- The spread `{...result}`: the four fields of `TranscriptionResult`. -/
def resultBaseJson (r : TranscriptionResult) : List (String × Json) :=
  [("text", .str r.text),
   ("segments", .arr (r.segments.map fun g => Json.obj (segBaseJson g))),
   ("language", .str r.language),
   ("duration", .num r.duration)]

/-- The fields of `generateJsonContent`'s export object:
`{...result, speaker_names: speakerNames, segments: result.segments.map(...)}`. -/
def generateJsonFields (names : List (String × String))
    (r : TranscriptionResult) : List (String × Json) :=
  objInsert
    (objInsert (resultBaseJson r) "speaker_names" (speakerNamesJson names))
    "segments" (.arr (r.segments.map (exportSegJson names)))

/-- `generateJsonContent` as the JSON tree it stringifies. -/
def generateJsonContent (names : List (String × String))
    (r : TranscriptionResult) : Json :=
  .obj (generateJsonFields names r)

/-! ## Transcription store (`stores/transcription.ts`) -/

/-- The zustand store state. -/
structure TranscriptionState where
  currentJob : Option JobResponse
  isProcessing : Bool
  error : Option String
  history : List JobResponse
deriving DecidableEq, Repr

/-- `addToHistory`: `[job, ...history.slice(0, 49)]`. -/
def addToHistory (job : JobResponse) (history : List JobResponse) :
    List JobResponse :=
  job :: history.take 49

/-- The history after a sequence of `addToHistory` calls starting from the
initial empty history. -/
def historyAfter (adds : List JobResponse) : List JobResponse :=
  adds.foldl (fun h j => addToHistory j h) []

/-- `reset`: zustand's `set` merges the partial object into the state, so
only the three listed fields change. -/
def resetStore (s : TranscriptionState) : TranscriptionState :=
  { s with currentJob := none, isProcessing := false, error := none }

/-! ## Claim-level and specification-side definitions -/

/-- Invariant of a stored selection: its file name passed
`validateFileName`, and a stored `File` object passed `validateFile` and
carries that very name. -/
def FileUploader.goodInfo (i : SelectedFileInfo) : Bool :=
  validateFileName i.fileName &&
  match i.file with
  | some f => validateFile f && (f.name == i.fileName)
  | none => true

/-- The invariant lifted to the optional state. -/
def FileUploader.goodState : Option SelectedFileInfo → Bool
  | none => true
  | some i => goodInfo i

/-- What the invariant yields for an emitted action. -/
def FileUploader.goodAction : SubmitAction → Bool
  | .fileSelect f _ => validateFile f
  | .filePathSelect _ fn _ _ => validateFileName fn

/-- The number of bytes an emitted action would upload: the stored `File`'s
size, or — for a path-based action — the size the file at that path has on
disk (`readBinaryFile` in `transcribeFileFromPath`). -/
def uploadByteSize (disk : String → ℕ) : FileUploader.SubmitAction → ℕ
  | .fileSelect f _ => f.size
  | .filePathSelect p _ _ _ => disk p

/-- Claim C2 as stated: on every selection path (drag-and-drop and the
file dialog alike), no upload action is ever emitted for a file above the
`MAX_FILE_SIZE_MB` ceiling. -/
def claimC2Prop : Prop :=
  ∀ (disk : String → ℕ) (hp : Bool) (evs : List FileUploader.UploaderEvent),
    ((FileUploader.runUploader hp evs).2.all fun a =>
      decide (uploadByteSize disk a ≤
        FileUploader.MAX_FILE_SIZE_MB * 1024 * 1024)) = true

/-- The options record used in concrete traces. -/
def optsBase : FileUploader.TranscriptionOptions :=
  ⟨none, .base, false, none⟩

/-- Claim C7's "exactly when the caller supplies those options", read over
all option records: the optional fields are present in the form iff the
caller passed them at all. -/
def claimC7Prop : Prop :=
  ∀ (f : JsFile) (o : TranscriptionRequest),
    (((transcribeFileForm f o).lookup "language").isSome
       = o.language.isSome) ∧
    (((transcribeFileForm f o).lookup "num_speakers").isSome
       = o.num_speakers.isSome)

/-- A small valid file for concrete form computations. -/
def fSmall : JsFile := ⟨"a.mp3", 10, "audio/mpeg"⟩

/-- An options record that supplies falsy values: the empty language and a
zero speaker count. -/
def reqZeroSpeakers : TranscriptionRequest :=
  ⟨some "", none, none, some 0⟩

/-- An options record supplying truthy values for everything. -/
def reqFull : TranscriptionRequest :=
  ⟨some "en", some .small, some true, some 2⟩

/-- A pending snapshot of a job. -/
def jobPendingW : JobResponse :=
  ⟨"job-1", .pending, 0, none, none, "t0", none⟩

/-- A completed snapshot of the same job. -/
def jobCompletedW : JobResponse :=
  ⟨"job-1", .completed, 100, none, none, "t0", some "t1"⟩

/-- The line the spec describes for the TXT export. -/
def txtLineSpec (names : List (String × String))
    (seg : TranscriptionSegment) : String :=
  (if hasSpeakerLabel seg then
    "[" ++ getSpeakerDisplayName names seg.speaker ++ "]: " else "")
  ++ seg.text

/-- The amended TXT shape: labelled segments joined by blank lines when
some segment carries a speaker label, the raw `result.text` otherwise. -/
def txtSpecContent (names : List (String × String))
    (r : TranscriptionResult) : String :=
  if r.segments.any hasSpeakerLabel then
    String.intercalate "\n\n" (r.segments.map (txtLineSpec names))
  else r.text

/-- Claim C4 as stated: the TXT export is always the segments joined by
blank lines with per-segment speaker labels — also when no segment has a
label. -/
def claimC4Prop : Prop :=
  ∀ (names : List (String × String)) (r : TranscriptionResult),
    generateTextContent names r =
      String.intercalate "\n\n" (r.segments.map (txtLineSpec names))

/-- An unlabelled two-segment result whose `text` field is not the
blank-line join of its segments. -/
def segHello : TranscriptionSegment := ⟨0, "hello", 0, 1, 1, none, none⟩

/-- Second segment of the plain result. -/
def segWorld : TranscriptionSegment := ⟨1, "world", 1, 2, 1, none, none⟩

/-- A completed result with no speaker labels. -/
def resultPlain : TranscriptionResult :=
  ⟨"hello world", [segHello, segWorld], "en", 2⟩

/-- The SRT time as the spec reads it: hours, minutes and seconds from the
whole-second count, milliseconds from the whole-millisecond count, each
zero-padded. -/
def srtTimeSpec (seconds : ℚ) : String :=
  padStart (toString (⌊seconds⌋₊ / 3600)) 2 '0' ++ ":" ++
  padStart (toString (⌊seconds⌋₊ % 3600 / 60)) 2 '0' ++ ":" ++
  padStart (toString (⌊seconds⌋₊ % 60)) 2 '0' ++ "," ++
  padStart (toString (⌊seconds * 1000⌋₊ % 1000)) 3 '0'

/-- The SRT cue the spec describes: 1-indexed counter, time line
`HH:MM:SS,mmm --> HH:MM:SS,mmm`, text prefixed with the bracketed speaker
label exactly when the segment has one. -/
def srtCueSpec (names : List (String × String)) (idx : ℕ)
    (seg : TranscriptionSegment) : String :=
  toString (idx + 1) ++ "\n" ++
  srtTimeSpec seg.start ++ " --> " ++ srtTimeSpec seg.stop ++ "\n" ++
  (if hasSpeakerLabel seg then
    "[" ++ getSpeakerDisplayName names seg.speaker ++ "] " else "") ++
  seg.text ++ "\n"

/-- The whole SRT document the spec describes. -/
def srtSpecContent (names : List (String × String))
    (r : TranscriptionResult) : String :=
  String.intercalate "\n"
    ((r.segments.enum).map fun p => srtCueSpec names p.1 p.2)

/-- A labelled segment with concrete nonnegative times. -/
def segWitness : TranscriptionSegment :=
  ⟨0, "hello there", 0, 2, 1, some "Speaker 1", none⟩

/-- A one-segment completed result. -/
def resultWitness : TranscriptionResult :=
  ⟨"hello there", [segWitness], "en", 2⟩

/-! ## Helper lemmas: size ceiling and the uploader invariant -/

/-- The exact byte threshold behind `size / (1024*1024) > MAX_FILE_SIZE_MB`. -/
theorem sizeCeil_iff (sz : ℕ) :
    ((FileUploader.MAX_FILE_SIZE_MB : ℚ) < (sz : ℚ) / (1024 * 1024)) ↔
      FileUploader.MAX_FILE_SIZE_MB * 1024 * 1024 < sz := by
  unfold FileUploader.MAX_FILE_SIZE_MB
  rw [lt_div_iff₀ (by norm_num)]
  norm_cast

theorem validateFile_eq_false_of_name {f : JsFile}
    (h : FileUploader.validateFileName f.name = false) :
    FileUploader.validateFile f = false := by
  unfold FileUploader.validateFile
  rw [h]
  rfl

theorem validateFileV2_eq_false_of_ext {f : JsFile}
    (h : FileUploader.SUPPORTED_FORMATS.contains
      ("." ++ lowerStr ((jsSplit f.name '.').getLastD "")) = false) :
    validateFileV2 f = false := by
  unfold validateFileV2
  rw [h]
  rfl

theorem validateFile_name {f : JsFile}
    (h : FileUploader.validateFile f = true) :
    FileUploader.validateFileName f.name = true := by
  unfold FileUploader.validateFile at h
  cases hn : FileUploader.validateFileName f.name with
  | true => rfl
  | false => simp [hn] at h

theorem validateFile_size {f : JsFile}
    (h : FileUploader.validateFile f = true) :
    f.size ≤ FileUploader.MAX_FILE_SIZE_MB * 1024 * 1024 := by
  unfold FileUploader.validateFile at h
  cases hn : FileUploader.validateFileName f.name with
  | true =>
    simp only [hn, if_true] at h
    by_cases hs :
        (FileUploader.MAX_FILE_SIZE_MB : ℚ) < (f.size : ℚ) / (1024 * 1024)
    · simp [hs] at h
    · have := (not_iff_not.mpr (sizeCeil_iff f.size)).mp hs
      omega
  | false => simp [hn] at h

namespace FileUploader

theorem handleFileChange_good (f : JsFile) (st : Option SelectedFileInfo)
    (h : goodState st = true) : goodState (handleFileChange f st) = true := by
  unfold handleFileChange
  cases hv : validateFile f with
  | true =>
    simp only [if_true]
    simp [goodState, goodInfo, validateFile_name hv, hv]
  | false => simpa [hv] using h

theorem handleBrowseSelect_good (p : String) (st : Option SelectedFileInfo)
    (h : goodState st = true) : goodState (handleBrowseSelect p st) = true := by
  unfold handleBrowseSelect
  cases hv : validateFileName (dialogFileName p) with
  | true => simp [goodState, goodInfo, hv]
  | false => simpa [hv] using h

theorem handleSubmit_good (hp : Bool) (st : Option SelectedFileInfo)
    (opts : TranscriptionOptions) (h : goodState st = true) :
    ∀ a, handleSubmit hp st opts = some a → goodAction a = true := by
  intro a ha
  cases st with
  | none => simp [handleSubmit] at ha
  | some info =>
    unfold handleSubmit at ha
    by_cases hk : info.kind = SelKind.file
    · simp only [hk, if_true] at ha
      cases hf : info.file with
      | some f =>
        simp only [hf] at ha
        cases ha
        have hinf : goodInfo info = true := h
        unfold goodInfo at hinf
        rw [hf] at hinf
        simp only [Bool.and_eq_true] at hinf
        simpa [goodAction] using hinf.2.1
      | none => simp [hf] at ha
    · simp only [hk, if_false] at ha
      cases hpth : info.path with
      | some p =>
        simp only [hpth] at ha
        cases hh : hp with
        | true =>
          rw [hh] at ha
          simp only [if_true] at ha
          cases ha
          have hinf : goodInfo info = true := h
          unfold goodInfo at hinf
          simp only [Bool.and_eq_true] at hinf
          simpa [goodAction] using hinf.1
        | false => rw [hh] at ha; simp at ha
      | none => simp [hpth] at ha

theorem runUploaderFrom_good (hp : Bool) (evs : List UploaderEvent) :
    ∀ st, goodState st = true →
      goodState (runUploaderFrom hp st evs).1 = true ∧
      ∀ a ∈ (runUploaderFrom hp st evs).2, goodAction a = true := by
  induction evs with
  | nil => intro st h; simpa [runUploaderFrom] using h
  | cons e evs ih =>
    intro st h
    cases e with
    | dropFile f =>
      have hst := handleFileChange_good f st h
      have := ih (handleFileChange f st) hst
      simpa [runUploaderFrom, stepUploader] using this
    | dialogSelect p =>
      have hst := handleBrowseSelect_good p st h
      have := ih (handleBrowseSelect p st) hst
      simpa [runUploaderFrom, stepUploader] using this
    | dialogCancel =>
      have := ih st h
      simpa [runUploaderFrom, stepUploader] using this
    | submit opts =>
      have := ih st h
      refine ⟨by simpa [runUploaderFrom, stepUploader] using this.1, ?_⟩
      intro a ha
      simp only [runUploaderFrom, stepUploader, List.mem_append] at ha
      rcases ha with ha | ha
      · have hsome : handleSubmit hp st opts = some a := by
          cases hsub : handleSubmit hp st opts with
          | none => rw [hsub] at ha; simp at ha
          | some b => rw [hsub] at ha; simp at ha; rw [ha]
        exact handleSubmit_good hp st opts h a hsome
      · exact this.2 a ha

theorem runUploader_good (hp : Bool) (evs : List UploaderEvent) :
    ∀ a ∈ (runUploader hp evs).2, goodAction a = true :=
  (runUploaderFrom_good hp evs none rfl).2

end FileUploader

/-! ## Claim C1 -/

/-- C1: for every selected input file — drag-and-drop or file dialog —
whose computed extension is outside the fixed allow-list, both
`validateFileName` and `validateFile` (in both component variants) return
`false`, the selection is not stored (`selectedFileInfo` unchanged, so
unset stays unset), `handleSubmit` emits nothing without a stored
selection, and across every event sequence each emitted upload action
carries a file name whose extension passed the allow-list — so no upload
request, and hence no job id, ever arises from an unsupported file. -/
theorem c1_unsupported_extension_never_submitted :
    (∀ name : String,
      FileUploader.SUPPORTED_FORMATS.contains (FileUploader.extOf name) = false →
      FileUploader.validateFileName name = false ∧
      (∀ (sz : ℕ) (ty : String),
        FileUploader.validateFile ⟨name, sz, ty⟩ = false ∧
        validateFileV2 ⟨name, sz, ty⟩ = false) ∧
      (∀ (st : Option FileUploader.SelectedFileInfo) (sz : ℕ) (ty : String),
        FileUploader.handleFileChange ⟨name, sz, ty⟩ st = st) ∧
      (∀ (st : Option FileUploader.SelectedFileInfo) (p : String),
        FileUploader.dialogFileName p = name →
        FileUploader.handleBrowseSelect p st = st) ∧
      (∀ (hp : Bool) (opts : FileUploader.TranscriptionOptions),
        FileUploader.handleSubmit hp none opts = none)) ∧
    (∀ (hp : Bool) (evs : List FileUploader.UploaderEvent),
      ((FileUploader.runUploader hp evs).2.all fun a =>
        FileUploader.validateFileName (FileUploader.actionFileName a)) = true) := by
  constructor
  · intro name hext
    have hvn : FileUploader.validateFileName name = false := hext
    refine ⟨hvn, ?_, ?_, ?_, ?_⟩
    · intro sz ty
      exact ⟨validateFile_eq_false_of_name (f := ⟨name, sz, ty⟩) hvn,
             validateFileV2_eq_false_of_ext (f := ⟨name, sz, ty⟩) hext⟩
    · intro st sz ty
      have hvf : FileUploader.validateFile ⟨name, sz, ty⟩ = false :=
        validateFile_eq_false_of_name hvn
      simp [FileUploader.handleFileChange, hvf]
    · intro st p hfn
      rw [FileUploader.handleBrowseSelect]
      rw [hfn, hvn]
      simp
    · intro hp opts
      rfl
  · intro hp evs
    rw [List.all_eq_true]
    intro a ha
    have hg := FileUploader.runUploader_good hp evs a ha
    cases a with
    | fileSelect f opts =>
      simpa [FileUploader.actionFileName] using validateFile_name hg
    | filePathSelect p fn mt opts =>
      simpa [FileUploader.actionFileName, FileUploader.goodAction] using hg

/-- Witness for C1 at the unsupported name `"notes.txt"` and a concrete
event trace. -/
theorem c1_unsupported_extension_never_submitted_witness :
    FileUploader.SUPPORTED_FORMATS.contains (FileUploader.extOf "notes.txt")
      = false ∧
    FileUploader.validateFileName "notes.txt" = false ∧
    FileUploader.validateFile ⟨"notes.txt", 1024, "text/plain"⟩ = false ∧
    FileUploader.dialogFileName "/home/u/notes.txt" = "notes.txt" ∧
    FileUploader.handleBrowseSelect "/home/u/notes.txt" none = none :=
  ⟨by decide,
   (c1_unsupported_extension_never_submitted.1 "notes.txt" (by decide)).1,
   ((c1_unsupported_extension_never_submitted.1 "notes.txt" (by decide)).2.1
      1024 "text/plain").1,
   by decide,
   (c1_unsupported_extension_never_submitted.1 "notes.txt"
      (by decide)).2.2.2.1 none "/home/u/notes.txt" (by decide)⟩

/-! ## Claim C2 -/

/-- Counterexample to C2: a 600 MB `.mp3` chosen through the file dialog is
stored after the extension check alone — `handleBrowseClick` never sees the
byte size — and `handleSubmit` emits the upload action for it. -/
theorem c2_counterexample_dialog_path_skips_size : ¬ claimC2Prop := by
  intro h
  have hev := h (fun _ => 600 * 1024 * 1024) true
    [FileUploader.UploaderEvent.dialogSelect "/media/interview.mp3",
     FileUploader.UploaderEvent.submit optsBase]
  exact absurd hev (by decide)

/-- C2 amended: the byte-size ceiling is enforced on the drag-and-drop
(`File` object) selection path — an oversized file fails `validateFile`
in both component variants and no `onFileSelect` action ever carries a
file above the ceiling — while the file-dialog path checks only the
extension, so dialog-selected paths are not size-checked before
submission. -/
theorem c2_size_ceiling_on_drag_drop_only :
    (∀ f : JsFile,
      FileUploader.MAX_FILE_SIZE_MB * 1024 * 1024 < f.size →
      FileUploader.validateFile f = false ∧ validateFileV2 f = false) ∧
    (∀ (hp : Bool) (evs : List FileUploader.UploaderEvent),
      ((FileUploader.runUploader hp evs).2.all fun a =>
        match a with
        | .fileSelect f _ =>
          decide (f.size ≤ FileUploader.MAX_FILE_SIZE_MB * 1024 * 1024)
        | .filePathSelect _ _ _ _ => true) = true) := by
  constructor
  · intro f hbig
    have hq : (FileUploader.MAX_FILE_SIZE_MB : ℚ) <
        (f.size : ℚ) / (1024 * 1024) := (sizeCeil_iff f.size).mpr hbig
    constructor
    · unfold FileUploader.validateFile
      cases hn : FileUploader.validateFileName f.name with
      | true => simp [hq]
      | false => simp
    · cases hn : FileUploader.SUPPORTED_FORMATS.contains
          ("." ++ lowerStr ((jsSplit f.name '.').getLastD "")) with
      | true => unfold validateFileV2; rw [hn]; simp [hq]
      | false => exact validateFileV2_eq_false_of_ext hn
  · intro hp evs
    rw [List.all_eq_true]
    intro a ha
    have hg := FileUploader.runUploader_good hp evs a ha
    cases a with
    | fileSelect f opts =>
      have := validateFile_size hg
      simpa using this
    | filePathSelect p fn mt opts => rfl

/-- Witness for C2 (amended) at a concrete oversized file. -/
theorem c2_size_ceiling_on_drag_drop_only_witness :
    FileUploader.MAX_FILE_SIZE_MB * 1024 * 1024 < 600 * 1024 * 1024 ∧
    FileUploader.validateFile ⟨"interview.mp3", 600 * 1024 * 1024,
      "audio/mpeg"⟩ = false :=
  ⟨by decide,
   (c2_size_ceiling_on_drag_drop_only.1
      ⟨"interview.mp3", 600 * 1024 * 1024, "audio/mpeg"⟩ (by decide)).1⟩

/-! ## Claim C8 -/

/-- C8: for every structured error body `{error: {code, message}}`, the
user-visible message is exactly `"code: message"` — on the axios
interceptor path and on the Tauri upload path alike — regardless of the
HTTP status, the transport message, or any `details` field carried by the
response. -/
theorem c8_structured_errors_surface_code_and_message :
    ∀ (code msg : String) (details : Option String) (transport : String)
      (status : ℕ),
      interceptorMessage ⟨some (some ⟨code, msg, details⟩), transport⟩ =
        code ++ ": " ++ msg ∧
      tauriUploadErrorMessage status (some ⟨code, msg, details⟩) =
        code ++ ": " ++ msg := by
  intro code msg details transport status
  exact ⟨rfl, rfl⟩

/-! ## Claim C9 -/

/-- C9: the history reached by any sequence of `addToHistory` calls is
exactly the most recent 50 added jobs, newest first. Hence it never
exceeds 50 entries, the most recently added job is at index 0, the
relative order of previously stored jobs is preserved, and the oldest
entry is dropped at the bound. -/
theorem c9_history_bounded_newest_first :
    ∀ (adds : List JobResponse),
      historyAfter adds = adds.reverse.take 50 ∧
      (historyAfter adds).length ≤ 50 ∧
      ∀ j, historyAfter (adds ++ [j]) = j :: (historyAfter adds).take 49 := by
  have step_eq : ∀ (h : List JobResponse) (j : JobResponse),
      addToHistory j h = (j :: h).take 50 := by
    intro h j
    simp [addToHistory, List.take_succ_cons]
  have key : ∀ (adds : List JobResponse) (h : List JobResponse),
      List.foldl (fun h j => addToHistory j h) (h.take 50) adds =
        (adds.reverse ++ h).take 50 := by
    intro adds
    induction adds with
    | nil => intro h; simp
    | cons j adds ih =>
      intro h
      have h1 : addToHistory j (h.take 50) = ((j :: h).take 50) := by
        rw [step_eq]
        simp [List.take_succ_cons, List.take_take]
      calc List.foldl (fun h j => addToHistory j h) (h.take 50) (j :: adds)
          = List.foldl (fun h j => addToHistory j h) ((j :: h).take 50)
              adds := by rw [List.foldl_cons, h1]
        _ = (adds.reverse ++ (j :: h)).take 50 := ih (j :: h)
        _ = ((j :: adds).reverse ++ h).take 50 := by
              simp [List.append_assoc]
  intro adds
  have hmain : historyAfter adds = adds.reverse.take 50 := by
    have := key adds []
    simpa [historyAfter] using this
  refine ⟨hmain, ?_, ?_⟩
  · rw [hmain]
    exact List.length_take_le 50 adds.reverse
  · intro j
    have h2 : historyAfter (adds ++ [j]) = (adds ++ [j]).reverse.take 50 :=
      ((by
        have := key (adds ++ [j]) []
        simpa [historyAfter] using this))
    rw [h2, hmain]
    simp [List.take_succ_cons, List.take_take]

/-! ## Claim C10 -/

/-- C10: `reset` clears exactly the current-job fields: afterwards
`currentJob` is `none`, `isProcessing` is `false`, `error` is `none`, and
`history` — the only other field of the store — is unchanged. -/
theorem c10_reset_clears_current_job_only :
    ∀ s : TranscriptionState,
      (resetStore s).currentJob = none ∧
      (resetStore s).isProcessing = false ∧
      (resetStore s).error = none ∧
      (resetStore s).history = s.history := by
  intro s
  exact ⟨rfl, rfl, rfl, rfl⟩

/-! ## Claim C6 -/

theorem absorbingB_tail {a : JobStatus} {l : List JobStatus}
    (h : absorbingB (a :: l) = true) : absorbingB l = true := by
  cases l with
  | nil => rfl
  | cons b t =>
    unfold absorbingB at h
    rw [Bool.and_eq_true] at h
    exact h.2

theorem absorbingB_all_eq {s : JobStatus} (hterm : isTerminal s = true) :
    ∀ (l : List JobStatus), absorbingB (s :: l) = true → ∀ x ∈ l, x = s := by
  intro l
  induction l with
  | nil => intro _ x hx; cases hx
  | cons b t ih =>
    intro h x hx
    unfold absorbingB at h
    rw [Bool.and_eq_true] at h
    obtain ⟨h1, h2⟩ := h
    have hb : b = s := by
      rw [hterm] at h1
      simpa using h1
    rcases List.mem_cons.mp hx with rfl | hx'
    · exact hb
    · exact ih (by rw [← hb]; exact h2) x hx'

/-- C6: over every legal snapshot sequence (one that never leaves a
terminal state), `pollJobStatus` resolves exactly when a polled snapshot is
`completed` (and then with such a snapshot), rejects exactly when a polled
snapshot is `failed` (and then with that job's error message,
`job.error || "Job failed"`), and schedules one further poll for every
non-terminal (`pending`/`processing`) snapshot. -/
theorem c6_poll_settles_exactly_on_terminal :
    ∀ (snaps : List JobResponse),
      absorbingB (snaps.map fun j => j.status) = true →
      ((∃ j ∈ snaps, j.status = JobStatus.completed) ↔
        ∃ j, (pollJobStatusRun snaps).2 = PollOutcome.resolved j) ∧
      ((∃ j ∈ snaps, j.status = JobStatus.failed) ↔
        ∃ m, (pollJobStatusRun snaps).2 = PollOutcome.rejected m) ∧
      (∀ j, (pollJobStatusRun snaps).2 = PollOutcome.resolved j →
        j ∈ snaps ∧ j.status = JobStatus.completed) ∧
      (∀ m, (pollJobStatusRun snaps).2 = PollOutcome.rejected m →
        ∃ j ∈ snaps, j.status = JobStatus.failed ∧ m = jobErrorMessage j) ∧
      (pollJobStatusRun snaps).1 =
        snaps.countP (fun j => !(isTerminal j.status)) := by
  intro snaps
  induction snaps with
  | nil =>
    intro _
    refine ⟨?_, ?_, ?_, ?_, ?_⟩ <;> simp [pollJobStatusRun]
  | cons j rest ih =>
    intro habs
    rw [List.map_cons] at habs
    have habs' : absorbingB (rest.map fun j => j.status) = true :=
      absorbingB_tail habs
    cases hst : j.status with
    | completed =>
      rw [hst] at habs
      have hpoll : pollJobStatusRun (j :: rest) =
          (0, PollOutcome.resolved j) := by
        simp [pollJobStatusRun, hst]
      have hall : ∀ x ∈ rest, x.status = JobStatus.completed := by
        intro x hx
        exact absorbingB_all_eq (s := JobStatus.completed) rfl
          (rest.map fun j => j.status) habs x.status
          (List.mem_map_of_mem _ hx)
      refine ⟨?_, ?_, ?_, ?_, ?_⟩
      · constructor
        · intro _
          exact ⟨j, by rw [hpoll]⟩
        · intro _
          exact ⟨j, List.mem_cons_self _ _, hst⟩
      · constructor
        · rintro ⟨x, hx, hxf⟩
          rcases List.mem_cons.mp hx with rfl | hx'
          · rw [hst] at hxf
            exact JobStatus.noConfusion hxf
          · rw [hall x hx'] at hxf
            exact JobStatus.noConfusion hxf
        · rintro ⟨m, hm⟩
          rw [hpoll] at hm
          exact PollOutcome.noConfusion hm
      · intro x hx
        rw [hpoll] at hx
        have : j = x := by
          have := PollOutcome.resolved.inj hx
          exact this
        rw [← this]
        exact ⟨List.mem_cons_self _ _, hst⟩
      · intro m hm
        rw [hpoll] at hm
        exact PollOutcome.noConfusion hm
      · have hz : rest.countP (fun j => !(isTerminal j.status)) = 0 := by
          rw [List.countP_eq_zero]
          intro x hx
          rw [hall x hx]
          decide
        rw [hpoll, List.countP_cons, hz]
        simp only [hst]
        decide
    | failed =>
      rw [hst] at habs
      have hpoll : pollJobStatusRun (j :: rest) =
          (0, PollOutcome.rejected (jobErrorMessage j)) := by
        simp [pollJobStatusRun, hst]
      have hall : ∀ x ∈ rest, x.status = JobStatus.failed := by
        intro x hx
        exact absorbingB_all_eq (s := JobStatus.failed) rfl
          (rest.map fun j => j.status) habs x.status
          (List.mem_map_of_mem _ hx)
      refine ⟨?_, ?_, ?_, ?_, ?_⟩
      · constructor
        · rintro ⟨x, hx, hxc⟩
          rcases List.mem_cons.mp hx with rfl | hx'
          · rw [hst] at hxc
            exact JobStatus.noConfusion hxc
          · rw [hall x hx'] at hxc
            exact JobStatus.noConfusion hxc
        · rintro ⟨jj, hjj⟩
          rw [hpoll] at hjj
          exact PollOutcome.noConfusion hjj
      · constructor
        · intro _
          exact ⟨jobErrorMessage j, by rw [hpoll]⟩
        · intro _
          exact ⟨j, List.mem_cons_self _ _, hst⟩
      · intro x hx
        rw [hpoll] at hx
        exact PollOutcome.noConfusion hx
      · intro m hm
        rw [hpoll] at hm
        have : jobErrorMessage j = m := PollOutcome.rejected.inj hm
        exact ⟨j, List.mem_cons_self _ _, hst, this.symm⟩
      · have hz : rest.countP (fun j => !(isTerminal j.status)) = 0 := by
          rw [List.countP_eq_zero]
          intro x hx
          rw [hall x hx]
          decide
        rw [hpoll, List.countP_cons, hz]
        simp only [hst]
        decide
    | pending =>
      have hpoll : pollJobStatusRun (j :: rest) =
          ((pollJobStatusRun rest).1 + 1, (pollJobStatusRun rest).2) := by
        simp [pollJobStatusRun, hst]
      obtain ⟨ih1, ih2, ih3, ih4, ih5⟩ := ih habs'
      refine ⟨?_, ?_, ?_, ?_, ?_⟩
      · constructor
        · rintro ⟨x, hx, hxc⟩
          rcases List.mem_cons.mp hx with rfl | hx'
          · rw [hst] at hxc
            exact JobStatus.noConfusion hxc
          · obtain ⟨jj, hjj⟩ := ih1.mp ⟨x, hx', hxc⟩
            exact ⟨jj, by rw [hpoll]; exact hjj⟩
        · rintro ⟨jj, hjj⟩
          rw [hpoll] at hjj
          obtain ⟨x, hx, hxc⟩ := ih1.mpr ⟨jj, hjj⟩
          exact ⟨x, List.mem_cons_of_mem _ hx, hxc⟩
      · constructor
        · rintro ⟨x, hx, hxf⟩
          rcases List.mem_cons.mp hx with rfl | hx'
          · rw [hst] at hxf
            exact JobStatus.noConfusion hxf
          · obtain ⟨m, hm⟩ := ih2.mp ⟨x, hx', hxf⟩
            exact ⟨m, by rw [hpoll]; exact hm⟩
        · rintro ⟨m, hm⟩
          rw [hpoll] at hm
          obtain ⟨x, hx, hxf⟩ := ih2.mpr ⟨m, hm⟩
          exact ⟨x, List.mem_cons_of_mem _ hx, hxf⟩
      · intro x hx
        rw [hpoll] at hx
        obtain ⟨hmem, hcs⟩ := ih3 x hx
        exact ⟨List.mem_cons_of_mem _ hmem, hcs⟩
      · intro m hm
        rw [hpoll] at hm
        obtain ⟨x, hx, hxf, hxm⟩ := ih4 m hm
        exact ⟨x, List.mem_cons_of_mem _ hx, hxf, hxm⟩
      · rw [hpoll]
        simp [List.countP_cons, hst, isTerminal, ih5]
    | processing =>
      have hpoll : pollJobStatusRun (j :: rest) =
          ((pollJobStatusRun rest).1 + 1, (pollJobStatusRun rest).2) := by
        simp [pollJobStatusRun, hst]
      obtain ⟨ih1, ih2, ih3, ih4, ih5⟩ := ih habs'
      refine ⟨?_, ?_, ?_, ?_, ?_⟩
      · constructor
        · rintro ⟨x, hx, hxc⟩
          rcases List.mem_cons.mp hx with rfl | hx'
          · rw [hst] at hxc
            exact JobStatus.noConfusion hxc
          · obtain ⟨jj, hjj⟩ := ih1.mp ⟨x, hx', hxc⟩
            exact ⟨jj, by rw [hpoll]; exact hjj⟩
        · rintro ⟨jj, hjj⟩
          rw [hpoll] at hjj
          obtain ⟨x, hx, hxc⟩ := ih1.mpr ⟨jj, hjj⟩
          exact ⟨x, List.mem_cons_of_mem _ hx, hxc⟩
      · constructor
        · rintro ⟨x, hx, hxf⟩
          rcases List.mem_cons.mp hx with rfl | hx'
          · rw [hst] at hxf
            exact JobStatus.noConfusion hxf
          · obtain ⟨m, hm⟩ := ih2.mp ⟨x, hx', hxf⟩
            exact ⟨m, by rw [hpoll]; exact hm⟩
        · rintro ⟨m, hm⟩
          rw [hpoll] at hm
          obtain ⟨x, hx, hxf⟩ := ih2.mpr ⟨m, hm⟩
          exact ⟨x, List.mem_cons_of_mem _ hx, hxf⟩
      · intro x hx
        rw [hpoll] at hx
        obtain ⟨hmem, hcs⟩ := ih3 x hx
        exact ⟨List.mem_cons_of_mem _ hmem, hcs⟩
      · intro m hm
        rw [hpoll] at hm
        obtain ⟨x, hx, hxf, hxm⟩ := ih4 m hm
        exact ⟨x, List.mem_cons_of_mem _ hx, hxf, hxm⟩
      · rw [hpoll]
        simp [List.countP_cons, hst, isTerminal, ih5]

/-- Witness for C6 at the two-snapshot sequence pending, completed. -/
theorem c6_poll_settles_exactly_on_terminal_witness :
    absorbingB ([jobPendingW, jobCompletedW].map fun j => j.status) = true ∧
    ∃ j, (pollJobStatusRun [jobPendingW, jobCompletedW]).2 =
      PollOutcome.resolved j :=
  ⟨by decide,
   (c6_poll_settles_exactly_on_terminal [jobPendingW, jobCompletedW]
      (by decide)).1.mp ⟨jobCompletedW, by simp, rfl⟩⟩

/-! ## Claim C7 -/

/-- Counterexample to C7: supplying `num_speakers = 0` (and likewise
`language = ""`) leaves the field out of the form, because the code guards
with JavaScript truthiness (`if (options.num_speakers)`), not with
presence. -/
theorem c7_counterexample_falsy_value_omitted : ¬ claimC7Prop := by
  intro h
  exact absurd (h fSmall reqZeroSpeakers).2 (by decide)

/-- C7 amended: every submission form built by `transcribeFile` (and
`transcribeFileFromPath`) contains the file payload plus `model_size`
(defaulting to `"base"`) and `enable_diarization` (defaulting to
`"false"`), and contains `language` / `num_speakers` exactly when the
caller supplies a truthy value for them — a nonempty language string, a
nonzero speaker count. -/
theorem c7_submission_form_fields :
    (∀ (f : JsFile) (o : TranscriptionRequest),
      (transcribeFileForm f o).lookup "file" =
        some (.filePart f.name (jsOrStr f.mime "audio/mpeg") f.size) ∧
      (transcribeFileForm f o).lookup "model_size" =
        some (.field (match o.model_size with
                      | some m => modelSizeStr m
                      | none => "base")) ∧
      (transcribeFileForm f o).lookup "enable_diarization" =
        some (.field (jsBoolStr (o.enable_diarization.getD false))) ∧
      (∀ v, o.language = some v → v ≠ "" →
        (transcribeFileForm f o).lookup "language" = some (.field v)) ∧
      ((transcribeFileForm f o).lookup "language" = none ↔
        o.language = none ∨ o.language = some "") ∧
      (∀ n : ℤ, o.num_speakers = some n → n ≠ 0 →
        (transcribeFileForm f o).lookup "num_speakers" =
          some (.field (toString n))) ∧
      ((transcribeFileForm f o).lookup "num_speakers" = none ↔
        o.num_speakers = none ∨ o.num_speakers = some 0)) ∧
    (∀ (fileName mime : String) (bytes : ℕ) (o : TranscriptionRequest),
      (transcribeFileFromPathForm fileName mime bytes o).lookup "file" =
        some (.filePart fileName mime bytes) ∧
      (transcribeFileFromPathForm fileName mime bytes o).lookup "model_size" =
        some (.field (match o.model_size with
                      | some m => modelSizeStr m
                      | none => "base")) ∧
      (transcribeFileFromPathForm fileName mime bytes o).lookup
          "enable_diarization" =
        some (.field (jsBoolStr (o.enable_diarization.getD false))) ∧
      (∀ v, o.language = some v → v ≠ "" →
        (transcribeFileFromPathForm fileName mime bytes o).lookup "language" =
          some (.field v)) ∧
      ((transcribeFileFromPathForm fileName mime bytes o).lookup "language" =
          none ↔ o.language = none ∨ o.language = some "") ∧
      (∀ n : ℤ, o.num_speakers = some n → n ≠ 0 →
        (transcribeFileFromPathForm fileName mime bytes o).lookup
          "num_speakers" = some (.field (toString n))) ∧
      ((transcribeFileFromPathForm fileName mime bytes o).lookup
          "num_speakers" = none ↔
        o.num_speakers = none ∨ o.num_speakers = some 0)) := by
  constructor
  · intro f o
    refine ⟨?_, ?_, ?_, ?_, ?_, ?_, ?_⟩
    · simp [transcribeFileForm, List.lookup]
    · rcases hL : o.language with _ | l
      · simp [transcribeFileForm, List.lookup, hL]
      · by_cases hl : l = "" <;>
          simp [transcribeFileForm, List.lookup, hL, hl]
    · rcases hL : o.language with _ | l
      · simp [transcribeFileForm, List.lookup, hL]
      · by_cases hl : l = "" <;>
          simp [transcribeFileForm, List.lookup, hL, hl]
    · intro v hv hne
      simp [transcribeFileForm, List.lookup, hv, hne]
    · rcases hL : o.language with _ | l
      · rcases hN : o.num_speakers with _ | n
        · simp [transcribeFileForm, List.lookup, hL, hN]
        · by_cases hn : n = 0 <;>
            simp [transcribeFileForm, List.lookup, hL, hN, hn]
      · by_cases hl : l = ""
        · rcases hN : o.num_speakers with _ | n
          · simp [transcribeFileForm, List.lookup, hL, hl, hN]
          · by_cases hn : n = 0 <;>
              simp [transcribeFileForm, List.lookup, hL, hl, hN, hn]
        · simp [transcribeFileForm, List.lookup, hL, hl]
    · intro n hn hne
      rcases hL : o.language with _ | l
      · simp [transcribeFileForm, List.lookup, hL, hn, hne]
      · by_cases hl : l = "" <;>
          simp [transcribeFileForm, List.lookup, hL, hl, hn, hne]
    · rcases hL : o.language with _ | l
      · rcases hN : o.num_speakers with _ | n
        · simp [transcribeFileForm, List.lookup, hL, hN]
        · by_cases hn : n = 0 <;>
            simp [transcribeFileForm, List.lookup, hL, hN, hn]
      · by_cases hl : l = ""
        · rcases hN : o.num_speakers with _ | n
          · simp [transcribeFileForm, List.lookup, hL, hl, hN]
          · by_cases hn : n = 0 <;>
              simp [transcribeFileForm, List.lookup, hL, hl, hN, hn]
        · rcases hN : o.num_speakers with _ | n
          · simp [transcribeFileForm, List.lookup, hL, hl, hN]
          · by_cases hn : n = 0 <;>
              simp [transcribeFileForm, List.lookup, hL, hl, hN, hn]
  · intro fileName mime bytes o
    refine ⟨?_, ?_, ?_, ?_, ?_, ?_, ?_⟩
    · simp [transcribeFileFromPathForm, List.lookup]
    · rcases hL : o.language with _ | l
      · simp [transcribeFileFromPathForm, List.lookup, hL]
      · by_cases hl : l = "" <;>
          simp [transcribeFileFromPathForm, List.lookup, hL, hl]
    · rcases hL : o.language with _ | l
      · simp [transcribeFileFromPathForm, List.lookup, hL]
      · by_cases hl : l = "" <;>
          simp [transcribeFileFromPathForm, List.lookup, hL, hl]
    · intro v hv hne
      simp [transcribeFileFromPathForm, List.lookup, hv, hne]
    · rcases hL : o.language with _ | l
      · rcases hN : o.num_speakers with _ | n
        · simp [transcribeFileFromPathForm, List.lookup, hL, hN]
        · by_cases hn : n = 0 <;>
            simp [transcribeFileFromPathForm, List.lookup, hL, hN, hn]
      · by_cases hl : l = ""
        · rcases hN : o.num_speakers with _ | n
          · simp [transcribeFileFromPathForm, List.lookup, hL, hl, hN]
          · by_cases hn : n = 0 <;>
              simp [transcribeFileFromPathForm, List.lookup, hL, hl, hN, hn]
        · simp [transcribeFileFromPathForm, List.lookup, hL, hl]
    · intro n hn hne
      rcases hL : o.language with _ | l
      · simp [transcribeFileFromPathForm, List.lookup, hL, hn, hne]
      · by_cases hl : l = "" <;>
          simp [transcribeFileFromPathForm, List.lookup, hL, hl, hn, hne]
    · rcases hL : o.language with _ | l
      · rcases hN : o.num_speakers with _ | n
        · simp [transcribeFileFromPathForm, List.lookup, hL, hN]
        · by_cases hn : n = 0 <;>
            simp [transcribeFileFromPathForm, List.lookup, hL, hN, hn]
      · by_cases hl : l = ""
        · rcases hN : o.num_speakers with _ | n
          · simp [transcribeFileFromPathForm, List.lookup, hL, hl, hN]
          · by_cases hn : n = 0 <;>
              simp [transcribeFileFromPathForm, List.lookup, hL, hl, hN, hn]
        · rcases hN : o.num_speakers with _ | n
          · simp [transcribeFileFromPathForm, List.lookup, hL, hl, hN]
          · by_cases hn : n = 0 <;>
              simp [transcribeFileFromPathForm, List.lookup, hL, hl, hN, hn]

/-- Witness for C7 (amended): the supplied nonempty language and nonzero
speaker count do appear in the form. -/
theorem c7_submission_form_fields_witness :
    (transcribeFileForm fSmall reqFull).lookup "language" =
      some (FormPart.field "en") ∧
    (transcribeFileForm fSmall reqFull).lookup "num_speakers" =
      some (FormPart.field (toString (2 : ℤ))) :=
  ⟨(c7_submission_form_fields.1 fSmall reqFull).2.2.2.1 "en" rfl (by decide),
   (c7_submission_form_fields.1 fSmall reqFull).2.2.2.2.2.1 2 rfl (by decide)⟩

/-! ## Claim C4 -/

theorem length_insertSorted (s : String) (l : List String) :
    (insertSorted s l).length = l.length + 1 := by
  induction l with
  | nil => rfl
  | cons a t ih =>
    unfold insertSorted
    by_cases h : strLeB s a = true
    · simp [h]
    · simp only [Bool.not_eq_true] at h
      simp [h, List.length_cons, ih]

theorem length_sortStrings (l : List String) :
    (sortStrings l).length = l.length := by
  induction l with
  | nil => rfl
  | cons a t ih =>
    unfold sortStrings at ih ⊢
    rw [List.foldr_cons, length_insertSorted, ih]
    rfl

theorem sortStrings_eq_nil_iff (l : List String) :
    sortStrings l = [] ↔ l = [] := by
  constructor
  · intro h
    have := length_sortStrings l
    rw [h] at this
    exact List.length_eq_zero.mp this.symm
  · rintro rfl
    rfl

theorem addOnce_ne_nil (acc : List String) (s : String) :
    addOnce acc s ≠ [] := by
  unfold addOnce
  split
  · intro heq
    rename_i hmem
    rw [heq] at hmem
    exact absurd hmem (List.not_mem_nil s)
  · simp

theorem collectStep_eq_nil (acc : List String) (g : TranscriptionSegment) :
    collectStep acc g = [] ↔ acc = [] ∧ hasSpeakerLabel g = false := by
  unfold collectStep hasSpeakerLabel
  cases hsp : g.speaker with
  | none => simp
  | some s =>
    by_cases hs : s = ""
    · simp [hs]
    · simp [hs, addOnce_ne_nil]

theorem collect_foldl_eq_nil (segs : List TranscriptionSegment) :
    ∀ acc, segs.foldl collectStep acc = [] ↔
      (acc = [] ∧ ∀ g ∈ segs, hasSpeakerLabel g = false) := by
  induction segs with
  | nil => intro acc; simp
  | cons g t ih =>
    intro acc
    rw [List.foldl_cons, ih, collectStep_eq_nil]
    constructor
    · rintro ⟨⟨h1, h2⟩, h3⟩
      refine ⟨h1, fun x hx => ?_⟩
      rcases List.mem_cons.mp hx with rfl | hx'
      · exact h2
      · exact h3 x hx'
    · rintro ⟨h1, h2⟩
      exact ⟨⟨h1, h2 g (List.mem_cons_self _ _)⟩,
             fun x hx => h2 x (List.mem_cons_of_mem _ hx)⟩

theorem uniqueSpeakers_eq_nil (segs : List TranscriptionSegment) :
    uniqueSpeakers segs = [] ↔ ∀ g ∈ segs, hasSpeakerLabel g = false := by
  unfold uniqueSpeakers collectSpeakers
  rw [sortStrings_eq_nil_iff, collect_foldl_eq_nil]
  simp

theorem getSpeakerDisplayName_empty_of_no_label
    (names : List (String × String)) (seg : TranscriptionSegment)
    (h : hasSpeakerLabel seg = false) :
    getSpeakerDisplayName names seg.speaker = "" := by
  unfold hasSpeakerLabel at h
  cases hsp : seg.speaker with
  | none => rfl
  | some s =>
    rw [hsp] at h
    simp only [Bool.not_eq_false'] at h
    have hs : s = "" := by simpa using h
    simp [getSpeakerDisplayName, hs]

theorem getSpeakerDisplayName_ne_empty_of_label
    (names : List (String × String)) (seg : TranscriptionSegment)
    (h : hasSpeakerLabel seg = true) :
    getSpeakerDisplayName names seg.speaker ≠ "" := by
  unfold hasSpeakerLabel at h
  cases hsp : seg.speaker with
  | none => rw [hsp] at h; exact Bool.noConfusion h
  | some s =>
    rw [hsp] at h
    simp only [Bool.not_eq_true'] at h
    have hs : s ≠ "" := by simpa using h
    unfold getSpeakerDisplayName jsOrStr
    simp only [hs, if_false]
    split
    · exact hs
    · assumption

theorem txtSpeakerTag_eq (names : List (String × String))
    (seg : TranscriptionSegment) :
    txtSpeakerTag names seg =
      (if hasSpeakerLabel seg then
        "[" ++ getSpeakerDisplayName names seg.speaker ++ "]: " else "") := by
  cases hl : hasSpeakerLabel seg with
  | true =>
    rw [txtSpeakerTag, if_neg (getSpeakerDisplayName_ne_empty_of_label names seg hl)]
    simp
  | false =>
    rw [txtSpeakerTag,
      if_pos (getSpeakerDisplayName_empty_of_no_label names seg hl)]
    simp

/-- Counterexample to C4: with no speaker label anywhere,
`generateTextContent` returns `result.text` ("hello world") verbatim, not
the blank-line join of the segments ("hello\n\nworld"). -/
theorem c4_counterexample_no_label_raw_text : ¬ claimC4Prop := by
  intro h
  exact absurd (h [] resultPlain) (by decide)

/-- C4 amended: when at least one segment carries a speaker label, the TXT
export is the segments joined by blank lines, each line prefixed
`[speaker]: ` exactly for labelled segments; when no segment carries a
label, the export is the result's `text` field verbatim instead of the
segment join. -/
theorem c4_txt_export_labelled_join_or_raw_text :
    ∀ (names : List (String × String)) (r : TranscriptionResult),
      generateTextContent names r = txtSpecContent names r := by
  intro names r
  unfold generateTextContent txtSpecContent
  by_cases h : ∀ g ∈ r.segments, hasSpeakerLabel g = false
  · have hnil : uniqueSpeakers r.segments = [] :=
      (uniqueSpeakers_eq_nil r.segments).mpr h
    have hany : r.segments.any hasSpeakerLabel = false := by
      rw [List.any_eq_false]
      intro g hg
      simp [h g hg]
    rw [hnil, hany]
    simp
  · have hne : uniqueSpeakers r.segments ≠ [] :=
      fun hh => h ((uniqueSpeakers_eq_nil r.segments).mp hh)
    have hlen : ¬ (uniqueSpeakers r.segments).length = 0 := by
      simpa [List.length_eq_zero] using hne
    have hany : r.segments.any hasSpeakerLabel = true := by
      rw [List.any_eq_true]
      push_neg at h
      obtain ⟨g, hg, hgl⟩ := h
      exact ⟨g, hg, by simpa using hgl⟩
    rw [if_neg hlen, hany]
    simp only [if_true]
    congr 1
    apply List.map_congr_left
    intro seg hseg
    rw [txtLineSpec, txtSpeakerTag_eq]

/-! ## Claim C5 -/

/-- C5: the JSON export object — `JSON.parse` of the export string gives
back exactly this tree — contains the full `TranscriptionResult`
verbatim: `text`, `language` and `duration` unchanged, one exported
segment per original segment carrying every original field with its
original value (`speaker` and `words` present exactly when originally
present), plus the caller's speaker-id → display-name mapping under
`speaker_names`. -/
theorem c5_json_export_contains_result_verbatim :
    ∀ (names : List (String × String)) (r : TranscriptionResult),
      (generateJsonFields names r).lookup "text" = some (.str r.text) ∧
      (generateJsonFields names r).lookup "language" =
        some (.str r.language) ∧
      (generateJsonFields names r).lookup "duration" =
        some (.num r.duration) ∧
      (generateJsonFields names r).lookup "speaker_names" =
        some (speakerNamesJson names) ∧
      (generateJsonFields names r).lookup "segments" =
        some (.arr (r.segments.map (exportSegJson names))) ∧
      ∀ g : TranscriptionSegment,
        (exportSegFields names g).lookup "id" = some (.num g.id) ∧
        (exportSegFields names g).lookup "text" = some (.str g.text) ∧
        (exportSegFields names g).lookup "start" = some (.num g.start) ∧
        (exportSegFields names g).lookup "end" = some (.num g.stop) ∧
        (exportSegFields names g).lookup "confidence" =
          some (.num g.confidence) ∧
        (exportSegFields names g).lookup "speaker" =
          g.speaker.map Json.str ∧
        (exportSegFields names g).lookup "words" =
          g.words.map (fun ws => Json.arr (ws.map wordToJson)) := by
  intro names r
  refine ⟨rfl, rfl, rfl, rfl, rfl, ?_⟩
  intro g
  refine ⟨?_, ?_, ?_, ?_, ?_, ?_, ?_⟩ <;>
    cases hsp : g.speaker <;> cases hw : g.words <;>
      simp [exportSegFields, segBaseJson, objInsert, List.lookup, hsp, hw]

/-! ## Claim C3 -/

/-- `toString` agrees across the embedding's cast from `ℕ` to `ℤ`. -/
theorem intCast_nat_toString (n : ℕ) : toString ((n : ℤ)) = toString n := rfl

theorem rtrunc_nonneg {q : ℚ} (h : 0 ≤ q) : rtrunc q = ⌊q⌋ :=
  if_neg (not_lt.mpr h)

theorem jsMod_nonneg_eq (a b : ℚ) (ha : 0 ≤ a) (hb : 0 < b) :
    jsMod a b = a - b * (⌊a / b⌋ : ℚ) := by
  unfold jsMod
  rw [rtrunc_nonneg (div_nonneg ha hb.le)]

theorem formatSrtTime_eq_spec (s : ℚ) (hs : 0 ≤ s) :
    formatSrtTime s = srtTimeSpec s := by
  set N := ⌊s⌋₊ with hN
  set T := ⌊s * 1000⌋₊ with hT
  have hNfloor : ((N : ℤ)) = ⌊s⌋ := Int.natCast_floor_eq_floor hs
  have hNle : (N : ℚ) ≤ s := Nat.floor_le hs
  have hours_eq : ⌊s / (3600 : ℚ)⌋ = ((N / 3600 : ℕ) : ℤ) := by
    rw [← Int.natCast_floor_eq_floor (div_nonneg hs (by norm_num)),
        Nat.floor_div_ofNat]
  have hmod3600 : jsMod s 3600 = s - ((3600 * (N / 3600) : ℕ) : ℚ) := by
    rw [jsMod_nonneg_eq s 3600 hs (by norm_num), hours_eq, Int.cast_natCast,
        Nat.cast_mul]
    push_cast
    ring
  have hK1le : 3600 * (N / 3600) ≤ N := by
    calc 3600 * (N / 3600) = N / 3600 * 3600 := Nat.mul_comm _ _
    _ ≤ N := Nat.div_mul_le_self N 3600
  have hsub1 : (0 : ℚ) ≤ s - ((3600 * (N / 3600) : ℕ) : ℚ) := by
    have hle : ((3600 * (N / 3600) : ℕ) : ℚ) ≤ (N : ℚ) := by
      exact_mod_cast hK1le
    linarith
  have hfloor1 : ⌊s - ((3600 * (N / 3600) : ℕ) : ℚ)⌋ =
      (N : ℤ) - (3600 * (N / 3600) : ℕ) := by
    rw [Int.floor_sub_nat, ← hNfloor]
  have hfloor1n : ⌊s - ((3600 * (N / 3600) : ℕ) : ℚ)⌋₊ =
      N - 3600 * (N / 3600) := by
    have h3 := Int.natCast_floor_eq_floor hsub1
    rw [hfloor1] at h3
    omega
  have mins_eq : ⌊jsMod s 3600 / 60⌋ = ((N % 3600 / 60 : ℕ) : ℤ) := by
    rw [hmod3600,
        ← Int.natCast_floor_eq_floor (div_nonneg hsub1 (by norm_num)),
        Nat.floor_div_ofNat, hfloor1n]
    congr 2
    omega
  have hdiv60 : ⌊s / (60 : ℚ)⌋ = ((N / 60 : ℕ) : ℤ) := by
    rw [← Int.natCast_floor_eq_floor (div_nonneg hs (by norm_num)),
        Nat.floor_div_ofNat]
  have hmod60 : jsMod s 60 = s - ((60 * (N / 60) : ℕ) : ℚ) := by
    rw [jsMod_nonneg_eq s 60 hs (by norm_num), hdiv60, Int.cast_natCast,
        Nat.cast_mul]
    push_cast
    ring
  have secs_eq : ⌊jsMod s 60⌋ = ((N % 60 : ℕ) : ℤ) := by
    rw [hmod60, Int.floor_sub_nat, ← hNfloor]
    push_cast
    omega
  have hdiv1 : ⌊s / (1 : ℚ)⌋ = (N : ℤ) := by rw [div_one, ← hNfloor]
  have hmod1 : jsMod s 1 = s - (N : ℚ) := by
    rw [jsMod_nonneg_eq s 1 hs (by norm_num), hdiv1, Int.cast_natCast]
    ring
  have hTN : T / 1000 = N := by
    have h1 : ⌊s * 1000 / (1000 : ℚ)⌋₊ = T / 1000 :=
      Nat.floor_div_ofNat (s * 1000) 1000
    rw [mul_div_cancel_right₀ s (by norm_num : (1000 : ℚ) ≠ 0)] at h1
    exact h1.symm
  have hTfloor : ((T : ℤ)) = ⌊s * 1000⌋ :=
    Int.natCast_floor_eq_floor (by positivity)
  have ms_eq : ⌊jsMod s 1 * 1000⌋ = ((T % 1000 : ℕ) : ℤ) := by
    rw [hmod1]
    have hsplit : (s - (N : ℚ)) * 1000 = s * 1000 - ((N * 1000 : ℕ) : ℚ) := by
      push_cast
      ring
    rw [hsplit, Int.floor_sub_nat, ← hTfloor]
    push_cast
    omega
  unfold formatSrtTime srtTimeSpec
  rw [hours_eq, mins_eq, secs_eq, ms_eq]
  rfl

theorem srtSpeakerTag_eq (names : List (String × String))
    (seg : TranscriptionSegment) :
    srtSpeakerTag names seg =
      (if hasSpeakerLabel seg then
        "[" ++ getSpeakerDisplayName names seg.speaker ++ "] " else "") := by
  cases hl : hasSpeakerLabel seg with
  | true =>
    rw [srtSpeakerTag,
      if_neg (getSpeakerDisplayName_ne_empty_of_label names seg hl)]
    simp
  | false =>
    rw [srtSpeakerTag,
      if_pos (getSpeakerDisplayName_empty_of_no_label names seg hl)]
    simp

theorem enumFrom_snd_mem {α : Type _} :
    ∀ (l : List α) (n : ℕ) (p : ℕ × α), p ∈ l.enumFrom n → p.2 ∈ l := by
  intro l
  induction l with
  | nil => intro n p hp; cases hp
  | cons a t ih =>
    intro n p hp
    rcases List.mem_cons.mp hp with rfl | hp'
    · exact List.mem_cons_self _ _
    · exact List.mem_cons_of_mem _ (ih (n + 1) p hp')

/-- C3: for every completed result whose segment times are nonnegative,
the SRT export is exactly one 1-indexed cue per segment in order, with the
time line `HH:MM:SS,mmm --> HH:MM:SS,mmm` — hours/minutes/seconds of the
whole-second count zero-padded to two digits, milliseconds to three — and
the text prefixed by the bracketed speaker label exactly when the segment
has one. -/
theorem c3_srt_export_shape :
    ∀ (names : List (String × String)) (r : TranscriptionResult),
      (∀ seg ∈ r.segments, 0 ≤ seg.start ∧ 0 ≤ seg.stop) →
      generateSrtContent names r = srtSpecContent names r := by
  intro names r h
  unfold generateSrtContent srtSpecContent
  refine congrArg (String.intercalate "\n") ?_
  apply List.map_congr_left
  intro p hp
  have hmem : p.2 ∈ r.segments := enumFrom_snd_mem r.segments 0 p hp
  obtain ⟨h1, h2⟩ := h p.2 hmem
  rw [srtCueSpec, formatSrtTime_eq_spec _ h1, formatSrtTime_eq_spec _ h2,
      srtSpeakerTag_eq]

/-- Witness for C3 at a concrete one-segment result. -/
theorem c3_srt_export_shape_witness :
    (∀ seg ∈ resultWitness.segments, 0 ≤ seg.start ∧ 0 ≤ seg.stop) ∧
    generateSrtContent [("Speaker 1", "Alice")] resultWitness =
      srtSpecContent [("Speaker 1", "Alice")] resultWitness :=
  ⟨by decide,
   c3_srt_export_shape [("Speaker 1", "Alice")] resultWitness (by decide)⟩
